import Mathlib

/-!
Verification of the go-watch file watcher's event pipeline.

The development shallowly embeds the Go sources of the repository
(`main.go` and the prototype variants) in Lean:

* `Command`, `Rule`, `Config` mirror the configuration structs;
* `executeCommand` / `runRuleCommands` / `executeRules` mirror the
  dispatcher in `main.go` (`executeCommand`, `executeRules`), with the
  external effects abstracted: the exit status of synchronously running a
  command is an oracle `σ : Command → Bool`, and the gobwas glob library
  is an oracle `m : String → String → Bool` standing for
  `glob.MustCompile(pattern).Match(path)`; the observable behaviour is the
  trace of commands handed to the shell, in execution order;
* `globMatch` is an executable model of gobwas glob matching for the
  fragment of patterns built from literal characters and `*` (compiled
  with no separator list, where `*` and `**` both match any sequence),
  used to instantiate the oracle on concrete examples;
* `mainLoopStep` mirrors one iteration of the `select` loop in `main.go`
  (debounce gate, event queueing, error-channel handling);
* `isIgnored` / `isIgnoredDir` / `registerDirs` mirror the substring-based
  ignore test and the startup registration walk;
* `isWatchedFileExt` / `isWatchedFileRules` / `isFrontendFile` /
  `filepathExt` mirror the extension matchers of the prototype variants
  and Go's `filepath.Ext`;
* `notifyLiveReload` mirrors the websocket broadcast loop, with the
  success of `WriteMessage` as an oracle `σ : κ → Bool` and clients
  listed in iteration order.
-/

/-- A single shell command with its parallel flag (struct `Command` in
`main.go`). -/
structure Command where
  cmd : String
  parallel : Bool
deriving DecidableEq, Repr

/-- A pattern set bound to an ordered command sequence (struct `Rule` in
`main.go`). -/
structure Rule where
  patterns : List String
  commands : List Command
deriving DecidableEq, Repr

/-- The configuration slice relevant to dispatch (struct `Config` in
`main.go`). -/
structure Config where
  ignoreDirs : List String
  rules : List Rule
deriving DecidableEq, Repr

/-- `executeCommand` from `main.go`, abstracted over the synchronous exit
status `σ`: a parallel command is launched in a goroutine and the function
returns `true` immediately; a serial command returns the run's success. -/
def executeCommand (σ : Command → Bool) (c : Command) : Bool :=
  if c.parallel then true else σ c

/-- The inner `for _, cmd := range rule.Commands` loop of `executeRules`
in `main.go`, returning the trace of commands handed to the shell: each
executed command is recorded; when `executeCommand` reports failure and
the command is not parallel, the loop breaks. -/
def runRuleCommands (σ : Command → Bool) : List Command → List Command
  | [] => []
  | c :: cs =>
    if executeCommand σ c then c :: runRuleCommands σ cs
    else if c.parallel = false then [c]
    else c :: runRuleCommands σ cs

/-- The `for _, pattern := range rule.Patterns` loop of `executeRules` in
`main.go`: for every pattern that matches the changed path, the rule's
full command sequence is run. -/
def runRulePatterns (m : String → String → Bool) (σ : Command → Bool)
    (filePath : String) (cmds : List Command) : List String → List Command
  | [] => []
  | p :: ps =>
    (if m p filePath then runRuleCommands σ cmds else []) ++
      runRulePatterns m σ filePath cmds ps

/-- `executeRules` from `main.go`: iterate rules in configuration order,
and within each rule iterate its patterns; return the concatenated trace
of commands handed to the shell. `m` stands for
`glob.MustCompile(pattern).Match(filePath)`. -/
def executeRules (m : String → String → Bool) (σ : Command → Bool)
    (filePath : String) : List Rule → List Command
  | [] => []
  | r :: rs =>
    runRulePatterns m σ filePath r.commands r.patterns ++
      executeRules m σ filePath rs

/-- Fuel-indexed model of gobwas glob matching (no separator list) for
patterns made of literal characters and `*`: a star matches any sequence
of characters, so consecutive stars (`**`) also match any sequence. Every
recursive call strictly decreases `pat.length + s.length`, so fuel
`pat.length + s.length + 1` always suffices. -/
def globMatchAux : Nat → List Char → List Char → Bool
  | 0, _, _ => false
  | _ + 1, [], s => s.isEmpty
  | fuel + 1, '*' :: ps, [] => globMatchAux fuel ps []
  | fuel + 1, '*' :: ps, c :: s =>
    globMatchAux fuel ps (c :: s) || globMatchAux fuel ('*' :: ps) s
  | _ + 1, _ :: _, [] => false
  | fuel + 1, p :: ps, c :: s => p == c && globMatchAux fuel ps s

/-- Glob matching on char lists: run `globMatchAux` with sufficient fuel. -/
def globMatch (pat s : List Char) : Bool :=
  globMatchAux (pat.length + s.length + 1) pat s

/-- Glob matching on strings, in the argument order of `executeRules`'
matcher oracle (pattern first). -/
def globMatchS (pattern path : String) : Bool :=
  globMatch pattern.data path.data


/-- A message received from a Go channel: either a delivered value
(`ok = true` in `v, ok := <-ch`) or the channel being closed
(`ok = false`). -/
inductive ChanMsg (α : Type) where
  | msg : α → ChanMsg α
  | closed
deriving DecidableEq, Repr

/-- One arrival at the `select` statement of `main.go`'s event loop:
either from `watcher.Events` (a filesystem event carrying its arrival
time, in nanoseconds, and the changed path) or from `watcher.Errors` (an
error value, modelled by its message string). -/
inductive LoopInput where
  | fsEvent : ChanMsg (Nat × String) → LoopInput
  | fsError : ChanMsg String → LoopInput
deriving DecidableEq, Repr

/-- One iteration of the event loop in `main.go`. State: `last`, the
`lastChange` timestamp (nanoseconds since Go's zero time; the zero value
of `time.Time` gives `0`). Result: `none` when the loop `return`s (a
channel reported `ok = false`); otherwise `some (dispatched, last')`
where `dispatched` is the path sent to `eventQueue` (or `none` when the
debounce gate drops the event or an error was merely logged) and `last'`
the updated timestamp. The gate is `time.Since(lastChange) >
debounceDuration`, i.e. `now - last > d`. -/
def mainLoopStep (d last : Nat) : LoopInput → Option (Option String × Nat)
  | .fsEvent .closed => none
  | .fsEvent (.msg e) =>
    if e.1 - last > d then some (some e.2, e.1) else some (none, last)
  | .fsError .closed => none
  | .fsError (.msg _) => some (none, last)

/-- Whether `sub` is a leading subword of `s` (char-list version of what
Go's `strings.Contains` checks at each offset). -/
def startsWithChars : List Char → List Char → Bool
  | _, [] => true
  | [], _ :: _ => false
  | c :: s, d :: t => c == d && startsWithChars s t

/-- Go's `strings.Contains(s, sub)` on char lists: `sub` occurs as a
contiguous subword of `s` (the empty `sub` is contained in every `s`). -/
def containsSub : List Char → List Char → Bool
  | [], sub => sub.isEmpty
  | c :: s, sub => startsWithChars (c :: s) sub || containsSub s sub

/-- `isIgnored` from the prototype watcher (`strings.Contains(path, dir)`
for each configured ignore token). -/
def isIgnored (path : String) (ignoreDirs : List String) : Bool :=
  ignoreDirs.any (fun dir => containsSub path.data dir.data)

/-- `isIgnoredDir` from `main.go` — same substring test as `isIgnored`. -/
def isIgnoredDir (path : String) (ignoreDirs : List String) : Bool :=
  ignoreDirs.any (fun ig => containsSub path.data ig.data)

/-- The startup registration walk of the prototype watcher: of the
directories enumerated by `filepath.Walk` (given here as the list `dirs`),
exactly those not hitting `isIgnored` are added to the watch source. -/
def registerDirs (ignoreDirs : List String) (dirs : List String) : List String :=
  dirs.filter (fun p => !(isIgnored p ignoreDirs))

/-- Go's `filepath.Ext`, inner loop: scan the path from its end, over the
reversed character list, accumulating the suffix; stop at a path
separator; on a dot, return the suffix from the dot on. -/
def extScan : List Char → List Char → List Char
  | [], _ => []
  | c :: rest, acc =>
    if c = '/' then []
    else if c = '.' then c :: acc
    else extScan rest (c :: acc)

/-- Go's `filepath.Ext(path)`: the suffix beginning at the final dot in
the final slash-separated element of `path`, empty if there is none. -/
def filepathExt (path : String) : String :=
  ⟨extScan path.data.reverse []⟩


/-- `isWatchedFile` from the extension-list prototype (`part_000`): the
path's extension equals `"." + e` for some configured extension `e`. -/
def isWatchedFileExt (path : String) (extensions : List String) : Bool :=
  extensions.any (fun e => "." ++ e == filepathExt path)

/-- A rule of the rule-based prototype (`part_001`): an extension list and
one command string. -/
structure ExtRule where
  extensions : List String
  command : String
deriving DecidableEq, Repr

/-- `isWatchedFile` from the rule-based prototype (`part_001`): some
rule has an extension that is the wildcard `"*"` or whose `"." + e`
equals the path's extension. -/
def isWatchedFileRules (path : String) (rules : List ExtRule) : Bool :=
  rules.any (fun r =>
    r.extensions.any (fun e => e == "*" || "." ++ e == filepathExt path))

/-- `isFrontendFile` from the prototype watchers: the extension is
`.html`, `.css` or `.js`. -/
def isFrontendFile (path : String) : Bool :=
  filepathExt path == ".html" || filepathExt path == ".css" ||
    filepathExt path == ".js"

/-- The fixed payload of a live-reload broadcast. -/
def reloadMsg : String := "reload"

/-- `notifyLiveReload` from the prototype watchers, abstracted over the
success of `WriteMessage` (`σ`) and the map-iteration order of the client
set (`clients`, keys of a Go map, hence without duplicates). Returns the
list of send attempts (each client is written the fixed `"reload"` text
exactly once) and the surviving client set: a client whose send fails is
closed and deleted from the set. -/
def notifyLiveReload {κ : Type} (σ : κ → Bool) : List κ → List (κ × String) × List κ
  | [] => ([], [])
  | c :: cs =>
    let r := notifyLiveReload σ cs
    if σ c then ((c, reloadMsg) :: r.1, c :: r.2)
    else ((c, reloadMsg) :: r.1, r.2)

/-- The live-reload trigger in the admitted-event branch of the prototype
watcher's loop: `if config.LiveReload && isFrontendFile(event.Name) {
notifyLiveReload(...) }`. Returns the send attempts performed for this
admitted event. -/
def reloadMessagesSent {κ : Type} (σ : κ → Bool) (clients : List κ)
    (liveReload : Bool) (name : String) : List (κ × String) :=
  if liveReload && isFrontendFile name then (notifyLiveReload σ clients).1
  else []

/-- `seg` occurs in `s` delimited by path separators (or the ends of the
string): the path-segment-aware notion of "contains an ignore token". -/
def SegmentOf (seg s : List Char) : Prop :=
  ∃ pre post, s = pre ++ seg ++ post ∧
    (pre = [] ∨ ∃ pre0, pre = pre0 ++ ['/']) ∧
    (post = [] ∨ ∃ post0, post = '/' :: post0)

theorem startsWithChars_iff (sub : List Char) : ∀ s : List Char,
    startsWithChars s sub = true ↔ ∃ rest, s = sub ++ rest := by
  induction sub with
  | nil =>
    intro s
    simp [startsWithChars]
  | cons d t ih =>
    intro s
    cases s with
    | nil =>
      simp [startsWithChars]
    | cons c s' =>
      simp only [startsWithChars, Bool.and_eq_true, beq_iff_eq, ih,
        List.cons_append, List.cons.injEq]
      constructor
      · rintro ⟨hc, rest, hrest⟩
        exact ⟨rest, hc, hrest⟩
      · rintro ⟨rest, hc, hrest⟩
        exact ⟨hc, rest, hrest⟩

theorem containsSub_iff (sub : List Char) : ∀ s : List Char,
    containsSub s sub = true ↔ ∃ pre post, s = pre ++ sub ++ post := by
  intro s
  induction s with
  | nil =>
    simp only [containsSub, List.isEmpty_iff]
    constructor
    · intro h
      exact ⟨[], [], by simp [h]⟩
    · rintro ⟨pre, post, h⟩
      exact (List.append_eq_nil.mp (List.append_eq_nil.mp h.symm).1).2
  | cons c s' ih =>
    simp only [containsSub, Bool.or_eq_true, startsWithChars_iff, ih]
    constructor
    · rintro (⟨rest, hrest⟩ | ⟨pre, post, h⟩)
      · exact ⟨[], rest, by simpa using hrest⟩
      · exact ⟨c :: pre, post, by simp [h]⟩
    · rintro ⟨pre, post, h⟩
      cases pre with
      | nil =>
        exact Or.inl ⟨post, by simpa using h⟩
      | cons p pre' =>
        simp only [List.cons_append, List.cons.injEq] at h
        exact Or.inr ⟨pre', post, h.2⟩

theorem containsSub_empty (s : List Char) : containsSub s [] = true := by
  cases s with
  | nil => rfl
  | cons c s' => simp [containsSub, startsWithChars]

theorem segmentOf_containsSub {seg s : List Char} (h : SegmentOf seg s) :
    containsSub s seg = true := by
  rcases h with ⟨pre, post, hs, -, -⟩
  exact (containsSub_iff seg s).mpr ⟨pre, post, hs⟩

theorem runRuleCommands_all_ok (σ : Command → Bool) :
    ∀ cs : List Command, (∀ c ∈ cs, executeCommand σ c = true) →
      runRuleCommands σ cs = cs := by
  intro cs
  induction cs with
  | nil => intro _; rfl
  | cons c cs' ih =>
    intro h
    have hc : executeCommand σ c = true := h c (List.mem_cons_self c cs')
    simp only [runRuleCommands, hc, if_pos]
    exact congrArg (c :: ·) (ih fun x hx => h x (List.mem_cons_of_mem c hx))

theorem runRuleCommands_serial_fail (σ : Command → Bool) (c : Command)
    (post : List Command) (hser : c.parallel = false) (hfail : σ c = false) :
    ∀ pre : List Command, (∀ x ∈ pre, executeCommand σ x = true) →
      runRuleCommands σ (pre ++ c :: post) = pre ++ [c] := by
  intro pre
  induction pre with
  | nil =>
    intro _
    have hc : executeCommand σ c = false := by
      simp [executeCommand, hser, hfail]
    simp [runRuleCommands, hc, hser]
  | cons x pre' ih =>
    intro h
    have hx : executeCommand σ x = true := h x (List.mem_cons_self x pre')
    simp only [List.cons_append, runRuleCommands, hx, if_pos]
    exact congrArg (x :: ·) (ih fun y hy => h y (List.mem_cons_of_mem x hy))

theorem runRulePatterns_eq_filter (m : String → String → Bool)
    (σ : Command → Bool) (fp : String) (cmds : List Command) :
    ∀ ps : List String,
      runRulePatterns m σ fp cmds ps =
        ((ps.filter (fun p => m p fp)).map
          (fun _ => runRuleCommands σ cmds)).flatten := by
  intro ps
  induction ps with
  | nil => rfl
  | cons p ps' ih =>
    by_cases h : m p fp = true
    · simp [runRulePatterns, h, ih, List.filter_cons]
    · simp only [Bool.not_eq_true] at h
      simp [runRulePatterns, h, ih, List.filter_cons]

theorem executeRules_append (m : String → String → Bool)
    (σ : Command → Bool) (fp : String) :
    ∀ rs1 rs2 : List Rule,
      executeRules m σ fp (rs1 ++ rs2) =
        executeRules m σ fp rs1 ++ executeRules m σ fp rs2 := by
  intro rs1 rs2
  induction rs1 with
  | nil => rfl
  | cons r rs' ih => simp [executeRules, ih]

theorem notifyLiveReload_fst {κ : Type} (σ : κ → Bool) :
    ∀ clients : List κ,
      (notifyLiveReload σ clients).1 = clients.map (fun c => (c, reloadMsg)) := by
  intro clients
  induction clients with
  | nil => rfl
  | cons c cs ih =>
    by_cases h : σ c = true
    · simp [notifyLiveReload, h, ih]
    · simp only [Bool.not_eq_true] at h
      simp [notifyLiveReload, h, ih]

theorem notifyLiveReload_snd {κ : Type} (σ : κ → Bool) :
    ∀ clients : List κ,
      (notifyLiveReload σ clients).2 = clients.filter σ := by
  intro clients
  induction clients with
  | nil => rfl
  | cons c cs ih =>
    by_cases h : σ c = true
    · simp [notifyLiveReload, h, ih, List.filter_cons]
    · simp only [Bool.not_eq_true] at h
      simp [notifyLiveReload, h, ih, List.filter_cons]

/-- C1 (counterexample): `executeRules` does not de-duplicate per rule
per event and does not short-circuit pattern iteration. With a single
rule whose two patterns `"**"` and `"*.go"` both match the changed path
`"a.go"`, the rule's single command is handed to the shell twice for the
one event, so its trace count exceeds one. -/
theorem executeRules_no_dedup_counterexample :
    ¬ (List.count (Command.mk "go build ./..." false)
        (executeRules globMatchS (fun _ => true) "a.go"
          [Rule.mk ["**", "*.go"] [Command.mk "go build ./..." false]]) ≤ 1) := by
  decide

/-- C1 (amended): for every changed path, `executeRules` runs a rule's
full command sequence once per pattern of that rule that matches the
path — a rule with several matching patterns runs its commands that many
times for the same event, and pattern iteration does not short-circuit.
Rules contribute their traces in configuration order. -/
theorem executeRules_runs_once_per_matching_pattern
    (m : String → String → Bool) (σ : Command → Bool) (fp : String) :
    ∀ rules : List Rule,
      executeRules m σ fp rules =
        (rules.map (fun r =>
          ((r.patterns.filter (fun p => m p fp)).map
            (fun _ => runRuleCommands σ r.commands)).flatten)).flatten := by
  intro rules
  induction rules with
  | nil => rfl
  | cons r rs ih =>
    simp only [executeRules, List.map_cons, List.flatten_cons, ih,
      runRulePatterns_eq_filter]

/-- C3: if the serial command `c` fails while every command before it in
the rule's sequence succeeded (or was parallel), the sequence's trace is
exactly the prefix up to and including `c`: no later command of the rule
runs for this event, while the commands already launched before `c`
(including parallel ones) are all in the trace. Moreover the dispatch
trace of a rule set decomposes rule by rule, so one rule's failure leaves
the traces of sibling rules unchanged (and `executeRules` is stateless
across events). -/
theorem serial_failure_stops_rule (σ : Command → Bool) (c : Command)
    (pre post : List Command)
    (hpre : ∀ x ∈ pre, executeCommand σ x = true)
    (hser : c.parallel = false) (hfail : σ c = false) :
    runRuleCommands σ (pre ++ c :: post) = pre ++ [c] ∧
    (∀ (m : String → String → Bool) (fp : String) (rs1 rs2 : List Rule)
      (r : Rule),
      executeRules m σ fp (rs1 ++ r :: rs2) =
        executeRules m σ fp rs1 ++
          runRulePatterns m σ fp r.commands r.patterns ++
          executeRules m σ fp rs2) := by
  constructor
  · exact runRuleCommands_serial_fail σ c post hser hfail pre hpre
  · intro m fp rs1 rs2 r
    rw [executeRules_append]
    simp [executeRules, List.append_assoc]

/-- C3 (witness): a four-command sequence — a parallel command, a
succeeding serial command, a failing serial command, one more serial
command — traces exactly its first three commands. -/
theorem serial_failure_stops_rule_witness :
    runRuleCommands (fun c => c.cmd == "go build ./...")
        ([Command.mk "eslint --fix ./src" true,
          Command.mk "go build ./..." false] ++
          Command.mk "go test ./..." false ::
          [Command.mk "docker-compose up -d" false]) =
      [Command.mk "eslint --fix ./src" true,
        Command.mk "go build ./..." false] ++
        [Command.mk "go test ./..." false] :=
  (serial_failure_stops_rule (fun c => c.cmd == "go build ./...")
    (Command.mk "go test ./..." false)
    [Command.mk "eslint --fix ./src" true, Command.mk "go build ./..." false]
    [Command.mk "docker-compose up -d" false]
    (by decide) (by decide) (by decide)).1

/-- C4: a command with `parallel = true` is reported to the dispatch loop
as successful no matter what its eventual exit status `σ` says (the
goroutine's failure is only logged), this report does not depend on `σ`
at all, and the loop proceeds to the remaining commands of the rule
unconditionally. -/
theorem parallel_command_never_blocks (σ : Command → Bool) (c : Command)
    (hpar : c.parallel = true) :
    executeCommand σ c = true ∧
    (∀ σ0 : Command → Bool, executeCommand σ0 c = executeCommand σ c) ∧
    (∀ rest : List Command,
      runRuleCommands σ (c :: rest) = c :: runRuleCommands σ rest) := by
  refine ⟨?_, ?_, ?_⟩
  · simp [executeCommand, hpar]
  · intro σ0
    simp [executeCommand, hpar]
  · intro rest
    simp [runRuleCommands, executeCommand, hpar]

/-- C4 (witness): a parallel command whose run fails (`σ` constantly
false) is still reported successful and does not stop the remaining
commands of its rule. -/
theorem parallel_command_never_blocks_witness :
    executeCommand (fun _ => false) (Command.mk "eslint --fix ./src" true) =
      true ∧
    runRuleCommands (fun _ => false)
        (Command.mk "eslint --fix ./src" true ::
          [Command.mk "webpack --config webpack.config.js" false]) =
      Command.mk "eslint --fix ./src" true ::
        runRuleCommands (fun _ => false)
          [Command.mk "webpack --config webpack.config.js" false] :=
  ⟨(parallel_command_never_blocks (fun _ => false)
      (Command.mk "eslint --fix ./src" true) rfl).1,
    (parallel_command_never_blocks (fun _ => false)
      (Command.mk "eslint --fix ./src" true) rfl).2.2
      [Command.mk "webpack --config webpack.config.js" false]⟩

/-- C2 (counterexample): with debounce 500 and an event admitted at time
1000, a second event exactly 500 later (δ = debounce time, so δ ≥
debounce time) is not admitted — the gate is `time.Since(lastChange) >
debounceDuration`, strict — contradicting "δ ≥ debounce_time ⟹ both are
admitted". The second event is silently dropped, with the timestamp left
at 1000. -/
theorem debounce_boundary_counterexample :
    mainLoopStep 500 0 (.fsEvent (.msg (1000, "a.go"))) =
      some (some "a.go", 1000) ∧
    1500 - 1000 ≥ 500 ∧
    mainLoopStep 500 1000 (.fsEvent (.msg (1500, "b.go"))) ≠
      some (some "b.go", 1500) ∧
    mainLoopStep 500 1000 (.fsEvent (.msg (1500, "b.go"))) =
      some (none, 1000) := by
  decide

/-- C2 (amended): the debounce gate is a single global window over a
shared last-admitted timestamp, independent of the event's path. After an
admission at time `t` (which sets the timestamp to `t`), a second event
at `t + δ` — whatever its path — is admitted exactly when `δ` strictly
exceeds the debounce duration, in which case the timestamp becomes
`t + δ`; when `δ ≤ debounce` (including equality) it is silently dropped,
not queued, and the timestamp is unchanged. -/
theorem debounce_global_window (d last0 t δ : Nat) (p1 p2 : String)
    (hfirst : t - last0 > d) :
    mainLoopStep d last0 (.fsEvent (.msg (t, p1))) = some (some p1, t) ∧
    (δ > d →
      mainLoopStep d t (.fsEvent (.msg (t + δ, p2))) =
        some (some p2, t + δ)) ∧
    (δ ≤ d →
      mainLoopStep d t (.fsEvent (.msg (t + δ, p2))) = some (none, t)) := by
  refine ⟨?_, ?_, ?_⟩
  · simp [mainLoopStep, hfirst]
  · intro h
    have : t + δ - t = δ := by omega
    simp [mainLoopStep, this, h]
  · intro h
    have h1 : t + δ - t = δ := by omega
    have h2 : ¬ (δ > d) := by omega
    simp [mainLoopStep, h1, h2]

/-- C2 (witness): debounce 500, first event admitted at 1000, second
event 501 later on a different path is admitted and updates the
timestamp. -/
theorem debounce_global_window_witness :
    mainLoopStep 500 1000 (.fsEvent (.msg (1000 + 501, "b.css"))) =
      some (some "b.css", 1000 + 501) :=
  (debounce_global_window 500 0 1000 501 "a.go" "b.css" (by decide)).2.1
    (by decide)

/-- C5 (counterexample): a runtime error value delivered on the watcher's
error channel does not make the event loop exit — the loop logs it and
continues with its state unchanged, dispatching nothing — contradicting
"the event loop exits and the process terminates". -/
theorem watch_error_is_not_fatal_counterexample :
    mainLoopStep 500 0 (.fsError (.msg "inotify failure")) ≠ none ∧
    mainLoopStep 500 0 (.fsError (.msg "inotify failure")) =
      some (none, 0) := by
  decide

/-- C5 (amended): a delivered watch-source error is logged and the event
loop continues consuming events with the debounce state unchanged and
nothing dispatched; the loop `return`s only when the error channel or the
event channel is closed (`ok = false`). -/
theorem watch_error_logged_loop_continues (d last : Nat) (e : String) :
    mainLoopStep d last (.fsError (.msg e)) = some (none, last) ∧
    mainLoopStep d last (.fsError .closed) = none ∧
    mainLoopStep d last (.fsEvent .closed) = none :=
  ⟨rfl, rfl, rfl⟩

/-- C6: during startup registration, a directory whose path contains a
configured ignore token as a substring anywhere — not only as a full path
segment — is excluded from watch registration; in particular a path with
a separator-delimited segment equal to a configured token is never
registered with the watch source. -/
theorem ignored_dirs_never_registered (igs dirs : List String)
    (p ig : String) (hig : ig ∈ igs) :
    (containsSub p.data ig.data = true → p ∉ registerDirs igs dirs) ∧
    (SegmentOf ig.data p.data → p ∉ registerDirs igs dirs) := by
  have key : containsSub p.data ig.data = true → p ∉ registerDirs igs dirs := by
    intro hsub hmem
    have h2 := (List.mem_filter.mp hmem).2
    have hign : isIgnored p igs = true := by
      simp only [isIgnored, List.any_eq_true]
      exact ⟨ig, hig, hsub⟩
    rw [hign] at h2
    exact absurd h2 (by decide)
  exact ⟨key, fun hseg => key (segmentOf_containsSub hseg)⟩

/-- C6 (witness): with ignore token `node_modules`, the walked directory
`a/node_modules` — in which `node_modules` is a full path segment — is
not registered. -/
theorem ignored_dirs_never_registered_witness :
    "a/node_modules" ∉ registerDirs ["node_modules"] ["a/node_modules"] :=
  (ignored_dirs_never_registered ["node_modules"] ["a/node_modules"]
      "a/node_modules" "node_modules" (by simp)).2
    ⟨['a', '/'], [], by decide, Or.inr ⟨['a'], by decide⟩, Or.inl rfl⟩

/-- C10: if the configured ignore-directory list contains the empty
string as a token, the substring-based ignore test accepts every path
(every string contains the empty substring), so the registration walk
registers nothing at all: watching is disabled entirely. -/
theorem empty_ignore_token_disables_watching (igs : List String)
    (h : "" ∈ igs) :
    (∀ p, isIgnored p igs = true) ∧
    (∀ p, isIgnoredDir p igs = true) ∧
    (∀ dirs, registerDirs igs dirs = []) := by
  have key : ∀ p : String, isIgnored p igs = true := by
    intro p
    simp only [isIgnored, List.any_eq_true]
    exact ⟨"", h, containsSub_empty p.data⟩
  refine ⟨key, ?_, ?_⟩
  · intro p
    have := key p
    simpa [isIgnored, isIgnoredDir] using this
  · intro dirs
    apply List.filter_eq_nil_iff.mpr
    intro a _
    simp [key a]

/-- C10 (witness): with ignore list `[""]`, the path `src` is ignored and
a concrete walk registers no directory. -/
theorem empty_ignore_token_disables_watching_witness :
    isIgnored "src" [""] = true ∧
    registerDirs [""] [".", "src", "src/app"] = [] :=
  ⟨(empty_ignore_token_disables_watching [""] (by simp)).1 "src",
    (empty_ignore_token_disables_watching [""] (by simp)).2.2
      [".", "src", "src/app"]⟩

/-- C7: a broadcast attempts the fixed text `"reload"` exactly once for
every client registered at the time of the broadcast and for no other
client (the attempt list is exactly the registered set paired with
`"reload"`, and is duplicate-free since a map's key set has no
duplicates); the surviving set is exactly the clients whose send
succeeded, so a client whose send fails is removed during that broadcast
and receives nothing from any later broadcast over the surviving set. -/
theorem broadcast_reaches_registered_clients {κ : Type}
    (σ σ0 : κ → Bool) (clients : List κ) :
    (notifyLiveReload σ clients).1 =
      clients.map (fun c => (c, reloadMsg)) ∧
    (notifyLiveReload σ clients).2 = clients.filter σ ∧
    (clients.Nodup → (notifyLiveReload σ clients).1.Nodup) ∧
    (∀ c ∈ clients, σ c = false →
      c ∉ (notifyLiveReload σ clients).2 ∧
      (c, reloadMsg) ∉
        (notifyLiveReload σ0 ((notifyLiveReload σ clients).2)).1) := by
  refine ⟨notifyLiveReload_fst σ clients, notifyLiveReload_snd σ clients,
    ?_, ?_⟩
  · intro hnd
    rw [notifyLiveReload_fst]
    have hinj : Function.Injective (fun c : κ => (c, reloadMsg)) := by
      intro a b hab
      exact (Prod.mk.injEq a reloadMsg b reloadMsg ▸ hab).1
    exact hnd.map hinj
  · intro c _ hfail
    have hnotin : c ∉ clients.filter σ := by
      intro hmem
      have := (List.mem_filter.mp hmem).2
      rw [hfail] at this
      exact absurd this (by decide)
    refine ⟨by rw [notifyLiveReload_snd]; exact hnotin, ?_⟩
    intro hmem
    rw [notifyLiveReload_fst, notifyLiveReload_snd] at hmem
    rcases List.mem_map.mp hmem with ⟨x, hx, hxe⟩
    have : x = c := congrArg Prod.fst hxe
    rw [this] at hx
    exact hnotin hx

/-- C7 (witness): two registered clients `1` and `2`; the attempt list is
duplicate-free (each client attempted once); client `2`'s send fails, so
it is removed by the broadcast and a follow-up broadcast over the
surviving set sends it nothing. -/
theorem broadcast_reaches_registered_clients_witness :
    (notifyLiveReload (fun c : Nat => c == 1) [1, 2]).1.Nodup ∧
    2 ∉ (notifyLiveReload (fun c : Nat => c == 1) [1, 2]).2 ∧
    (2, reloadMsg) ∉
      (notifyLiveReload (fun c : Nat => c == 1)
        ((notifyLiveReload (fun c : Nat => c == 1) [1, 2]).2)).1 :=
  ⟨(broadcast_reaches_registered_clients (fun c : Nat => c == 1)
      (fun c : Nat => c == 1) [1, 2]).2.2.1 (by decide),
    ((broadcast_reaches_registered_clients (fun c : Nat => c == 1)
      (fun c : Nat => c == 1) [1, 2]).2.2.2 2 (by decide) (by decide)).1,
    ((broadcast_reaches_registered_clients (fun c : Nat => c == 1)
      (fun c : Nat => c == 1) [1, 2]).2.2.2 2 (by decide) (by decide)).2⟩

/-- C8: with live reload enabled, an admitted change event triggers the
broadcast exactly when the changed path's extension is in the fixed
front-end set {`.html`, `.css`, `.js`}: in that case every registered
client is attempted once with `"reload"`, and for any other extension no
reload message is sent at all. -/
theorem live_reload_iff_frontend_extension {κ : Type} (σ : κ → Bool)
    (clients : List κ) (name : String) :
    (isFrontendFile name = true ↔
      (filepathExt name = ".html" ∨ filepathExt name = ".css" ∨
        filepathExt name = ".js")) ∧
    (isFrontendFile name = true →
      reloadMessagesSent σ clients true name =
        clients.map (fun c => (c, reloadMsg))) ∧
    (isFrontendFile name = false →
      reloadMessagesSent σ clients true name = []) := by
  refine ⟨?_, ?_, ?_⟩
  · simp [isFrontendFile, or_assoc]
  · intro h
    simp [reloadMessagesSent, h, notifyLiveReload_fst]
  · intro h
    simp [reloadMessagesSent, h]

/-- C8 (witness): with two registered clients, a change to `index.html`
yields one attempted `"reload"` per client, and a change to `main.go`
yields zero reload messages. -/
theorem live_reload_iff_frontend_extension_witness :
    reloadMessagesSent (fun _ : Nat => true) [1, 2] true "index.html" =
      [(1, reloadMsg), (2, reloadMsg)] ∧
    reloadMessagesSent (fun _ : Nat => true) [1, 2] true "main.go" = [] :=
  ⟨((live_reload_iff_frontend_extension (fun _ : Nat => true) [1, 2]
      "index.html").2.1 (by decide)).trans rfl,
    (live_reload_iff_frontend_extension (fun _ : Nat => true) [1, 2]
      "main.go").2.2 (by decide)⟩

/-- C9 (counterexample): the empty path does match the `"*"` wildcard —
the rule-based matcher accepts the empty path as soon as some rule lists
the extension `"*"`, and the glob pattern `"*"` matches the empty path —
contradicting "an empty path never matches anything, including wildcard
patterns such as the `*` extension". -/
theorem empty_path_wildcard_counterexample :
    isWatchedFileRules "" [ExtRule.mk ["*"] "go run main.go"] = true ∧
    globMatchS "*" "" = true := by
  decide

/-- C9 (amended): the empty path never matches a concrete extension — its
`filepath.Ext` is empty and can never equal `"." + e` — so the
extension-list matcher rejects it for every extension list; but the `"*"`
wildcard matches every path including the empty one: the rule-based
matcher accepts the empty path exactly when some rule lists `"*"`, and
the glob pattern `"*"` matches the empty path. -/
theorem empty_path_matching (exts : List String) (rules : List ExtRule) :
    isWatchedFileExt "" exts = false ∧
    (isWatchedFileRules "" rules = true ↔
      ∃ r ∈ rules, "*" ∈ r.extensions) ∧
    globMatchS "*" "" = true := by
  have hdot : ∀ e : String, ¬ ("." ++ e = filepathExt "") := by
    intro e hcontra
    have hd := congrArg String.data hcontra
    rw [String.data_append] at hd
    exact List.cons_ne_nil '.' e.data hd
  refine ⟨?_, ?_, by decide⟩
  · simp only [isWatchedFileExt, List.any_eq_false]
    intro e _
    simp [beq_iff_eq, hdot e]
  · simp only [isWatchedFileRules, List.any_eq_true, Bool.or_eq_true,
      beq_iff_eq]
    constructor
    · rintro ⟨r, hr, e, he, h | h⟩
      · exact ⟨r, hr, h ▸ he⟩
      · exact absurd h (hdot e)
    · rintro ⟨r, hr, hstar⟩
      exact ⟨r, hr, "*", hstar, Or.inl rfl⟩
